import Mathlib

/-!
Verification development for the appointment-backend database replicator.

The engine replicates Firestore-style document collections from a primary
("main") database to a standby ("backup") database, plus an auth directory.
This file gives a shallow embedding of the replication core:

* `getIncrementalDocuments`, `checkForDuplicates`, and the per-collection
  sync loop of `src/services/syncService.js` (`syncCollectionToBackup`,
  `syncCollectionToMain`), modelled as the pure function
  `syncCollectionCore` over list-represented databases;
* the coordinator-level `performFullSync` / `performRecovery` of
  `src/services/enhancedSyncService.js`, including the health gate, the
  busy guard, and the stats-file persistence;
* `discoverCollections` and `analyzeCollectionSchema` of
  `src/services/syncService.js`.

Timestamps are ISO-8601 strings, and JavaScript compares them with `<` and
`>=`, i.e. lexicographically by code unit; that comparison is embedded as
the computable `charListLt` below.  A JavaScript field that is absent or
falsy is modelled as `none`.  Wall-clock reads
(`new Date().toISOString()`) are modelled by an explicit `now` parameter.
-/

/-- ISO-8601 timestamp string; JS compares these lexicographically. -/
abbrev Timestamp := String

/-- Lexicographic code-unit comparison of character lists: the semantics
of the JavaScript `<` operator on strings. -/
def charListLt : List Char → List Char → Bool
  | [], [] => false
  | [], _ :: _ => true
  | _ :: _, [] => false
  | a :: as, b :: bs =>
    if a.toNat < b.toNat then true
    else if b.toNat < a.toNat then false
    else charListLt as bs

/-- JS `s < t` for strings. -/
def tsLt (s t : Timestamp) : Bool := charListLt s.data t.data

theorem charListLt_irrefl (l : List Char) : charListLt l l = false := by
  induction l with
  | nil => rfl
  | cons a as ih => simp [charListLt, ih]

theorem charListLt_trans (a : List Char) : ∀ b c,
    charListLt a b = true → charListLt b c = true →
    charListLt a c = true := by
  induction a with
  | nil =>
    intro b c h1 h2
    cases c with
    | nil =>
      cases b with
      | nil => exact h1
      | cons y ys => simp [charListLt] at h2
    | cons z zs => rfl
  | cons x xs ih =>
    intro b c h1 h2
    cases b with
    | nil => simp [charListLt] at h1
    | cons y ys =>
      cases c with
      | nil => simp [charListLt] at h2
      | cons z zs =>
        simp only [charListLt] at h1 h2 ⊢
        by_cases hxy : x.toNat < y.toNat
        · by_cases hyz : y.toNat < z.toNat
          · simp [show x.toNat < z.toNat by omega]
          · by_cases hzy : z.toNat < y.toNat
            · simp [hyz, hzy] at h2
            · simp [show x.toNat < z.toNat by omega]
        · by_cases hyx : y.toNat < x.toNat
          · simp [hxy, hyx] at h1
          · by_cases hyz : y.toNat < z.toNat
            · simp [show x.toNat < z.toNat by omega]
            · by_cases hzy : z.toNat < y.toNat
              · simp [hyz, hzy] at h2
              · simp [hxy, hyx] at h1
                simp [hyz, hzy] at h2
                simp [show ¬x.toNat < z.toNat by omega,
                      show ¬z.toNat < x.toNat by omega]
                exact ih ys zs h1 h2

theorem charListLt_connex (a : List Char) : ∀ b,
    charListLt a b = false → charListLt b a = true ∨ a = b := by
  induction a with
  | nil =>
    intro b h
    cases b with
    | nil => exact Or.inr rfl
    | cons y ys => simp [charListLt] at h
  | cons x xs ih =>
    intro b h
    cases b with
    | nil => exact Or.inl rfl
    | cons y ys =>
      simp only [charListLt] at h ⊢
      by_cases hxy : x.toNat < y.toNat
      · simp [hxy] at h
      · by_cases hyx : y.toNat < x.toNat
        · simp [hyx]
        · simp [hxy, hyx] at h
          rcases ih ys h with h2 | h2
          · exact Or.inl (by simp [hxy, hyx, h2])
          · refine Or.inr ?_
            have hxy2 : x.toNat = y.toNat := by omega
            have hx : x = y := Char.ext (UInt32.ext hxy2)
            rw [hx, h2]

theorem charListLt_false_trans (a b c : List Char)
    (h1 : charListLt a b = false) (h2 : charListLt b c = false) :
    charListLt a c = false := by
  by_contra hlt
  rw [Bool.not_eq_false] at hlt
  rcases charListLt_connex b c h2 with hcb | hbc
  · have : charListLt a b = true := charListLt_trans a c b hlt hcb
    rw [h1] at this
    cases this
  · rw [hbc] at h1
    rw [h1] at hlt
    cases hlt

/-- The two timestamp fields of a document payload that the engine reads.
The rest of the payload is never inspected by the replication logic
(documents are copied wholesale), so it is not represented. -/
structure DocData where
  updatedAt : Option Timestamp
  createdAt : Option Timestamp
deriving DecidableEq, Repr

/-- A document as stored in a collection: id plus payload. -/
structure SourceDoc where
  id : String
  data : DocData
deriving DecidableEq, Repr

/-- A database collection: a list of documents (ids are unique in Firestore;
theorems that need this take a `Nodup` hypothesis on the ids). -/
abbrev Db := List SourceDoc

/-- A document as produced by `getIncrementalDocuments`: the raw data plus
the enriched `updatedAt` field (`data.updatedAt || data.createdAt ||
new Date().toISOString()` in the source). -/
structure FetchedDoc where
  id : String
  data : DocData
  updatedAt : Timestamp
deriving DecidableEq, Repr

/-- `data.updatedAt || data.createdAt`: the timestamp used both by the
duplicate check (for source and target sides) and as the first two
fallbacks of the enrichment. -/
def effTimestamp (d : DocData) : Option Timestamp :=
  match d.updatedAt with
  | some u => some u
  | none => d.createdAt

/-- Enrichment performed per snapshot row in `getIncrementalDocuments`:
`updatedAt: data.updatedAt || data.createdAt || new Date().toISOString()`. -/
def enrich (now : Timestamp) (d : SourceDoc) : FetchedDoc :=
  { id := d.id, data := d.data,
    updatedAt := match effTimestamp d.data with | some t => t | none => now }

/-- The server-side Firestore filter `where(updatedAt, >, lastSyncTime)`:
a document matches only when its stored `updatedAt` field exists and is
strictly greater; documents without the field are excluded by Firestore.
With no `lastSyncTime` the whole collection is returned. -/
def matchesFilter (since : Option Timestamp) (d : SourceDoc) : Bool :=
  match since with
  | none => true
  | some w =>
    match d.data.updatedAt with
    | some u => tsLt w u
    | none => false

/-- `getIncrementalDocuments(db, collectionName, lastSyncTime)`:
query (optionally filtered by `updatedAt > lastSyncTime`), then map each
snapshot row to `{id, data, updatedAt: data.updatedAt || data.createdAt ||
now}`. -/
def getIncrementalDocuments (db : Db) (since : Option Timestamp)
    (now : Timestamp) : List FetchedDoc :=
  (db.filter (matchesFilter since)).map (enrich now)

/-- Point lookup of a document by id (`targetDb.getAll` per reference). -/
def dbGet : Db → String → Option DocData
  | [], _ => none
  | d :: rest, i => if d.id = i then some d.data else dbGet rest i

/-- The skip condition of `checkForDuplicates`: the target holds the id and
`existingTimestamp && newTimestamp && existingTimestamp >= newTimestamp`,
where each side is `updatedAt || createdAt` of the respective raw data and
`>=` on JS strings is the negation of `<`. -/
def dupSkip (target : Db) (doc : FetchedDoc) : Bool :=
  match dbGet target doc.id with
  | none => false
  | some existing =>
    match effTimestamp existing, effTimestamp doc.data with
    | some ex, some nw => !tsLt ex nw
    | _, _ => false

/-- `checkForDuplicates(targetDb, collectionName, documents)` success path:
returns the surviving documents and the number of duplicates skipped
(the source increments `syncStats.duplicatesSkipped` once per dropped
document while filtering).  The per-100 `getAll` chunking of the source
only batches the point lookups and does not affect the outcome, so it is
not represented. -/
def checkForDuplicates (target : Db) (docs : List FetchedDoc) :
    List FetchedDoc × Nat :=
  ((docs.filter (fun d => !dupSkip target d)),
   (docs.filter (fun d => dupSkip target d)).length)

/-- Merge-write of one document (`batch.set(docRef, doc.data, merge)`):
fields present in the written data win, the remaining fields of an
existing target document are kept. -/
def mergeData (src old : DocData) : DocData :=
  { updatedAt := match src.updatedAt with | some u => some u | none => old.updatedAt,
    createdAt := match src.createdAt with | some c => some c | none => old.createdAt }

/-- Upsert-merge into a collection, keyed by document id. -/
def setMerge : Db → String → DocData → Db
  | [], i, data => [{ id := i, data := data }]
  | d :: rest, i, data =>
    if d.id = i then { id := d.id, data := mergeData data d.data } :: rest
    else d :: setMerge rest i data

/-- The effect on the target of committing every scheduled write of the
batch loop, in order. -/
def applyWrites (target : Db) (docs : List FetchedDoc) : Db :=
  docs.foldl (fun db d => setMerge db d.id d.data) target

/-- One iteration of the batch loop of `syncCollectionToBackup`:
`batchCount++`, and when it reaches 450 the batch is committed
(`totalSynced += batchCount; batchCount = 0`) and counted.  State is
`(batchCount, totalSynced, commits)`. -/
def batchStep (acc : Nat × Nat × Nat) (_d : FetchedDoc) : Nat × Nat × Nat :=
  let bc := acc.1 + 1
  if 450 ≤ bc then (0, acc.2.1 + bc, acc.2.2 + 1)
  else (bc, acc.2.1, acc.2.2)

/-- The whole batch phase: the 450-bounded loop followed by the residual
commit (`if batchCount > 0 then commit`).  Returns
`(totalSynced, number of commits)`. -/
def batchRun (docs : List FetchedDoc) : Nat × Nat :=
  let r := docs.foldl batchStep (0, 0, 0)
  if 0 < r.1 then (r.2.1 + r.1, r.2.2 + 1) else (r.2.1, r.2.2)

/-- One step of the `latestTimestamp` tracking of the batch loop:
`if doc.updatedAt && (!latestTimestamp || doc.updatedAt > latestTimestamp)`.
The enriched `updatedAt` is always a nonempty string (truthy), so the
first conjunct always holds. -/
def wmStep (acc : Option Timestamp) (d : FetchedDoc) : Option Timestamp :=
  match acc with
  | none => some d.updatedAt
  | some t => if tsLt t d.updatedAt then some d.updatedAt else some t

/-- `latestTimestamp` after the batch loop, starting from `lastSyncTime`. -/
def foldWatermark (init : Option Timestamp) (docs : List FetchedDoc) :
    Option Timestamp :=
  docs.foldl wmStep init

/-- Outcome of one per-collection sync pass.  `written` is the returned
`totalSynced`, `skipped` the `duplicatesSkipped` delta, `fetched` the
number of documents the pass observed, `commits` the number of batch
commits, and `target`/`watermark` the resulting backup collection and
`syncMetadata` entry. -/
structure CollSyncResult where
  written : Nat
  skipped : Nat
  fetched : Nat
  commits : Nat
  target : Db
  watermark : Option Timestamp
deriving DecidableEq, Repr

/-- The shared algorithm of `syncCollectionToBackup` and
`syncCollectionToMain` (the two JS methods are textual twins with source,
target and metadata key swapped; they differ only in emitted event names).
`incrementalOnly` selects the stored watermark as `lastSyncTime`;
`dupCheckOk = false` models the catch branch of `checkForDuplicates`
returning the original list.  The two early returns (no documents fetched /
nothing left after the duplicate check) return 0 without touching the
watermark, exactly as in the source. -/
def syncCollectionCore (source target : Db) (wm : Option Timestamp)
    (incrementalOnly dupCheckOk : Bool) (now : Timestamp) : CollSyncResult :=
  let lastSyncTime := if incrementalOnly then wm else none
  let documents := getIncrementalDocuments source lastSyncTime now
  if documents.isEmpty then
    { written := 0, skipped := 0, fetched := 0, commits := 0,
      target := target, watermark := wm }
  else
    let checked :=
      if dupCheckOk then checkForDuplicates target documents
      else (documents, 0)
    if checked.1.isEmpty then
      { written := 0, skipped := checked.2, fetched := documents.length,
        commits := 0, target := target, watermark := wm }
    else
      let br := batchRun checked.1
      { written := br.1, skipped := checked.2, fetched := documents.length,
        commits := br.2,
        target := applyWrites target checked.1,
        watermark := foldWatermark lastSyncTime checked.1 }

/-- `lastSyncTime` as selected at the top of the collection sync. -/
def coreLastSync (wm : Option Timestamp) (inc : Bool) : Option Timestamp :=
  if inc then wm else none

/-- The documents a collection pass observes. -/
def coreFetched (source : Db) (wm : Option Timestamp) (inc : Bool)
    (now : Timestamp) : List FetchedDoc :=
  getIncrementalDocuments source (coreLastSync wm inc) now

/-- The documents a collection pass schedules for writing (after the
duplicate check, or all observed documents when the check errored). -/
def coreToSync (source target : Db) (wm : Option Timestamp)
    (inc ok : Bool) (now : Timestamp) : List FetchedDoc :=
  if ok then (coreFetched source wm inc now).filter (fun d => !dupSkip target d)
  else coreFetched source wm inc now

/-- Closed form of the number of commits the batch phase performs for a
given number of scheduled writes: one per full 450-block plus one residual
commit when the remainder is nonzero. -/
def numCommits (n : Nat) : Nat := n / 450 + (if n % 450 = 0 then 0 else 1)

theorem foldl_batchStep (docs : List FetchedDoc) :
    ∀ bc t c, bc < 450 →
      docs.foldl batchStep (bc, t, c) =
        ((bc + docs.length) % 450, t + 450 * ((bc + docs.length) / 450),
         c + (bc + docs.length) / 450) := by
  induction docs with
  | nil =>
    intro bc t c h
    simp [Nat.mod_eq_of_lt h, Nat.div_eq_of_lt h]
  | cons d rest ih =>
    intro bc t c h
    simp only [List.foldl_cons, batchStep, List.length_cons]
    by_cases h450 : 450 ≤ bc + 1
    · rw [if_pos h450, ih 0 (t + (bc + 1)) (c + 1) (by omega)]
      have hbc : bc = 449 := by omega
      subst hbc
      simp only [Prod.mk.injEq]
      refine ⟨by omega, by omega, by omega⟩
    · rw [if_neg h450, ih (bc + 1) t c (by omega)]
      simp only [Prod.mk.injEq]
      refine ⟨by omega, by omega, by omega⟩

theorem batchRun_eq (docs : List FetchedDoc) :
    batchRun docs = (docs.length, numCommits docs.length) := by
  have h := foldl_batchStep docs 0 0 0 (by omega)
  simp only [Nat.zero_add] at h
  simp only [batchRun, numCommits, h]
  split <;> (simp only [Prod.mk.injEq]; constructor) <;>
    first
    | (split <;> omega)
    | omega

theorem syncCollectionCore_eq (source target : Db) (wm : Option Timestamp)
    (inc ok : Bool) (now : Timestamp) :
    syncCollectionCore source target wm inc ok now =
      { written := (coreToSync source target wm inc ok now).length,
        skipped :=
          if ok then
            ((coreFetched source wm inc now).filter
              (fun d => dupSkip target d)).length
          else 0,
        fetched := (coreFetched source wm inc now).length,
        commits := numCommits (coreToSync source target wm inc ok now).length,
        target := applyWrites target (coreToSync source target wm inc ok now),
        watermark :=
          if (coreToSync source target wm inc ok now).isEmpty then wm
          else foldWatermark (coreLastSync wm inc)
            (coreToSync source target wm inc ok now) } := by
  unfold syncCollectionCore coreToSync coreFetched coreLastSync checkForDuplicates
  by_cases hF : getIncrementalDocuments source (if inc then wm else none) now = []
  · simp [hF, applyWrites, numCommits]
  · have hF' : (getIncrementalDocuments source
        (if inc then wm else none) now).isEmpty = false := by
      simp [List.isEmpty_iff, hF]
    cases ok with
    | false =>
      simp only [Bool.false_eq_true, if_false, hF', batchRun_eq]
    | true =>
      by_cases hT : (getIncrementalDocuments source
          (if inc then wm else none) now).filter (fun d => !dupSkip target d) = []
      · simp [hF', hT, applyWrites, numCommits]
      · have hT' : ((getIncrementalDocuments source
            (if inc then wm else none) now).filter
            (fun d => !dupSkip target d)).isEmpty = false := by
          simp [List.isEmpty_iff, hT]
        simp only [if_true, hF', hT', Bool.false_eq_true, if_false, batchRun_eq]

theorem core_written (source target : Db) (wm : Option Timestamp)
    (inc ok : Bool) (now : Timestamp) :
    (syncCollectionCore source target wm inc ok now).written
      = (coreToSync source target wm inc ok now).length := by
  rw [syncCollectionCore_eq]

theorem core_skipped (source target : Db) (wm : Option Timestamp)
    (inc ok : Bool) (now : Timestamp) :
    (syncCollectionCore source target wm inc ok now).skipped
      = if ok then
          ((coreFetched source wm inc now).filter
            (fun d => dupSkip target d)).length
        else 0 := by
  rw [syncCollectionCore_eq]

theorem core_fetched (source target : Db) (wm : Option Timestamp)
    (inc ok : Bool) (now : Timestamp) :
    (syncCollectionCore source target wm inc ok now).fetched
      = (coreFetched source wm inc now).length := by
  rw [syncCollectionCore_eq]

theorem core_commits (source target : Db) (wm : Option Timestamp)
    (inc ok : Bool) (now : Timestamp) :
    (syncCollectionCore source target wm inc ok now).commits
      = numCommits (coreToSync source target wm inc ok now).length := by
  rw [syncCollectionCore_eq]

theorem core_target (source target : Db) (wm : Option Timestamp)
    (inc ok : Bool) (now : Timestamp) :
    (syncCollectionCore source target wm inc ok now).target
      = applyWrites target (coreToSync source target wm inc ok now) := by
  rw [syncCollectionCore_eq]

theorem core_watermark (source target : Db) (wm : Option Timestamp)
    (inc ok : Bool) (now : Timestamp) :
    (syncCollectionCore source target wm inc ok now).watermark
      = if (coreToSync source target wm inc ok now).isEmpty then wm
        else foldWatermark (coreLastSync wm inc)
          (coreToSync source target wm inc ok now) := by
  rw [syncCollectionCore_eq]

theorem dbGet_setMerge_ne (db : Db) (i j : String) (v : DocData)
    (h : i ≠ j) : dbGet (setMerge db j v) i = dbGet db i := by
  induction db with
  | nil => simp [setMerge, dbGet, Ne.symm h]
  | cons d rest ih =>
    by_cases hd : d.id = j
    · simp only [setMerge, if_pos hd, dbGet]
      rw [if_neg (by rw [hd]; exact Ne.symm h), if_neg (by rw [hd]; exact Ne.symm h)]
    · simp only [setMerge, if_neg hd, dbGet]
      by_cases hdi : d.id = i
      · rw [if_pos hdi, if_pos hdi]
      · rw [if_neg hdi, if_neg hdi, ih]

theorem dbGet_applyWrites_notMem (docs : List FetchedDoc) (db : Db)
    (i : String) (h : i ∉ docs.map FetchedDoc.id) :
    dbGet (applyWrites db docs) i = dbGet db i := by
  induction docs generalizing db with
  | nil => rfl
  | cons d rest ih =>
    simp only [List.map_cons, List.mem_cons, not_or] at h
    rw [show applyWrites db (d :: rest)
          = applyWrites (setMerge db d.id d.data) rest from rfl]
    rw [ih _ h.2, dbGet_setMerge_ne _ _ _ _ h.1]

theorem foldWatermark_some_le (docs : List FetchedDoc) (t : Timestamp) :
    ∃ w, foldWatermark (some t) docs = some w
      ∧ charListLt w.data t.data = false := by
  induction docs generalizing t with
  | nil => exact ⟨t, rfl, charListLt_irrefl t.data⟩
  | cons d rest ih =>
    simp only [foldWatermark, List.foldl_cons, wmStep]
    by_cases hlt : tsLt t d.updatedAt = true
    · rw [if_pos hlt]
      obtain ⟨w, hw, hle⟩ := ih d.updatedAt
      refine ⟨w, hw, ?_⟩
      by_contra hwt
      rw [Bool.not_eq_false] at hwt
      have := charListLt_trans w.data t.data d.updatedAt.data hwt hlt
      rw [hle] at this
      cases this
    · rw [if_neg hlt]
      exact ih t

theorem foldWatermark_le_of_mem (docs : List FetchedDoc)
    (init : Option Timestamp) (d : FetchedDoc) (hd : d ∈ docs)
    (w : Timestamp) (hw : foldWatermark init docs = some w) :
    charListLt w.data d.updatedAt.data = false := by
  induction docs generalizing init with
  | nil => cases hd
  | cons x rest ih =>
    have hstep : ∃ m, wmStep init x = some m
        ∧ charListLt m.data x.updatedAt.data = false := by
      cases init with
      | none => exact ⟨x.updatedAt, rfl, charListLt_irrefl _⟩
      | some t =>
        by_cases hlt : tsLt t x.updatedAt = true
        · exact ⟨x.updatedAt, by simp [wmStep, hlt], charListLt_irrefl _⟩
        · refine ⟨t, by simp [wmStep, hlt], ?_⟩
          simpa [tsLt] using hlt
    obtain ⟨m, hm, hxm⟩ := hstep
    have hfold : foldWatermark (some m) rest = some w := by
      simpa only [foldWatermark, List.foldl_cons, hm] using hw
    rcases List.mem_cons.mp hd with hdx | hdr
    · obtain ⟨w', hw', hmw'⟩ := foldWatermark_some_le rest m
      rw [hw'] at hfold
      cases hfold
      exact hdx ▸ charListLt_false_trans _ _ _ hmw' hxm
    · exact ih (some m) hdr hfold

theorem foldWatermark_some_of_ne_nil (docs : List FetchedDoc)
    (init : Option Timestamp) (h : docs ≠ []) :
    ∃ w, foldWatermark init docs = some w := by
  cases docs with
  | nil => cases h rfl
  | cons x rest =>
    cases init with
    | none =>
      obtain ⟨w, hw, _⟩ := foldWatermark_some_le rest x.updatedAt
      exact ⟨w, by simpa [foldWatermark, wmStep] using hw⟩
    | some t =>
      obtain ⟨w, hw, _⟩ := foldWatermark_some_le (x :: rest) t
      exact ⟨w, hw⟩

theorem mem_getIncrementalDocuments (db : Db) (since : Option Timestamp)
    (now : Timestamp) (d : FetchedDoc) :
    d ∈ getIncrementalDocuments db since now ↔
      ∃ p, p ∈ db ∧ matchesFilter since p = true ∧ d = enrich now p := by
  simp only [getIncrementalDocuments, List.mem_map, List.mem_filter]
  constructor
  · rintro ⟨p, ⟨hp, hf⟩, rfl⟩
    exact ⟨p, hp, hf, rfl⟩
  · rintro ⟨p, hp, hf, rfl⟩
    exact ⟨p, ⟨hp, hf⟩, rfl⟩

theorem ids_getIncrementalDocuments (db : Db) (since : Option Timestamp)
    (now : Timestamp) :
    (getIncrementalDocuments db since now).map FetchedDoc.id
      = (db.filter (matchesFilter since)).map SourceDoc.id := by
  simp only [getIncrementalDocuments, List.map_map]
  rfl

theorem nodup_ids_getIncrementalDocuments (db : Db)
    (hn : (db.map SourceDoc.id).Nodup) (since : Option Timestamp)
    (now : Timestamp) :
    ((getIncrementalDocuments db since now).map FetchedDoc.id).Nodup := by
  rw [ids_getIncrementalDocuments]
  exact ((List.filter_sublist db).map SourceDoc.id).nodup hn

theorem id_notMem_toSync_of_dup (source target : Db) (wm : Option Timestamp)
    (inc : Bool) (now : Timestamp) (d : FetchedDoc)
    (hn : (source.map SourceDoc.id).Nodup)
    (hd : d ∈ coreFetched source wm inc now)
    (hdup : dupSkip target d = true) :
    d.id ∉ (coreToSync source target wm inc true now).map FetchedDoc.id := by
  intro hmem
  obtain ⟨d', hd', hid⟩ := List.mem_map.mp hmem
  have hd'mem : d' ∈ (coreFetched source wm inc now).filter
      (fun x => !dupSkip target x) := by
    simpa [coreToSync] using hd'
  have hd'F : d' ∈ coreFetched source wm inc now :=
    (List.mem_filter.mp hd'mem).1
  have hnd : ((coreFetched source wm inc now).map FetchedDoc.id).Nodup :=
    nodup_ids_getIncrementalDocuments source hn _ now
  have heq : d' = d := List.inj_on_of_nodup_map hnd hd'F hd hid
  subst heq
  have := (List.mem_filter.mp hd'mem).2
  simp [hdup] at this

/-- A source of n distinct documents with a fixed stored updatedAt,
used to exercise the batch-commit boundary. -/
def mkSrc (n : Nat) : Db :=
  (List.range n).map (fun i =>
    { id := toString i,
      data := { updatedAt := some "2024-01-01T00:00:00Z", createdAt := none } })

/-- C1: for every document a forward-sync or recovery pass observes, if the
target already holds the id and the target stored timestamp (updatedAt
falling back to createdAt) is greater than or equal to the source document
timestamp, then the document is skipped by the duplicate check, it is not
scheduled, the target entry for that id is untouched by the pass, and the
pass counts it (together with every other skipped document) in the
duplicatesSkipped delta. -/
theorem c1_duplicate_skipped_not_written (source target : Db)
    (wm : Option Timestamp) (inc : Bool) (now : Timestamp) (d : FetchedDoc)
    (ex : DocData) (et nt : Timestamp)
    (hn : (source.map SourceDoc.id).Nodup)
    (hd : d ∈ coreFetched source wm inc now)
    (hex : dbGet target d.id = some ex)
    (het : effTimestamp ex = some et)
    (hnt : effTimestamp d.data = some nt)
    (hge : tsLt et nt = false) :
    dupSkip target d = true ∧
    d ∉ coreToSync source target wm inc true now ∧
    dbGet (syncCollectionCore source target wm inc true now).target d.id
      = dbGet target d.id ∧
    (syncCollectionCore source target wm inc true now).skipped
      = ((coreFetched source wm inc now).filter
          (fun x => dupSkip target x)).length := by
  have hdup : dupSkip target d = true := by
    simp only [dupSkip, hex, het, hnt, hge, Bool.not_false]
  refine ⟨hdup, ?_, ?_, ?_⟩
  · intro hmem
    have hmem' : d ∈ coreFetched source wm inc now
        ∧ dupSkip target d = false := by
      simpa [coreToSync, List.mem_filter] using hmem
    have hfalse := hmem'.2
    rw [hdup] at hfalse
    cases hfalse
  · rw [core_target]
    exact dbGet_applyWrites_notMem _ _ _
      (id_notMem_toSync_of_dup source target wm inc now d hn hd hdup)
  · rw [core_skipped]
    rfl

theorem c1_duplicate_skipped_not_written_witness :
    dupSkip [⟨"a", ⟨some "2024-03-01T00:00:00Z", none⟩⟩]
        (enrich "2025-01-01T00:00:00Z" ⟨"a", ⟨some "2024-02-01T00:00:00Z", none⟩⟩)
      = true ∧
    dbGet (syncCollectionCore [⟨"a", ⟨some "2024-02-01T00:00:00Z", none⟩⟩]
        [⟨"a", ⟨some "2024-03-01T00:00:00Z", none⟩⟩]
        none false true "2025-01-01T00:00:00Z").target "a"
      = dbGet [⟨"a", ⟨some "2024-03-01T00:00:00Z", none⟩⟩] "a" := by
  have h := c1_duplicate_skipped_not_written
    [⟨"a", ⟨some "2024-02-01T00:00:00Z", none⟩⟩]
    [⟨"a", ⟨some "2024-03-01T00:00:00Z", none⟩⟩]
    none false "2025-01-01T00:00:00Z"
    (enrich "2025-01-01T00:00:00Z" ⟨"a", ⟨some "2024-02-01T00:00:00Z", none⟩⟩)
    ⟨some "2024-03-01T00:00:00Z", none⟩
    "2024-03-01T00:00:00Z" "2024-02-01T00:00:00Z"
    (by decide) (by decide) (by decide) (by decide) (by decide) (by decide)
  exact ⟨h.1, h.2.2.1⟩

set_option maxRecDepth 40000

/-- C5: the batch loop commits a pending batch exactly when it reaches 450
scheduled operations, with one residual commit for a nonzero remainder:
the synced counter returned by a pass equals the total of the committed
batch sizes, which is the number of scheduled writes; 450 scheduled writes
produce exactly one commit and 451 produce exactly two, both in the
closed form and on concrete 450- and 451-document runs. -/
theorem c5_batch_commit_boundaries :
    (∀ (source target : Db) (wm : Option Timestamp) (inc : Bool)
        (now : Timestamp),
      (syncCollectionCore source target wm inc true now).written
        = (coreToSync source target wm inc true now).length ∧
      (syncCollectionCore source target wm inc true now).commits
        = numCommits (coreToSync source target wm inc true now).length) ∧
    (∀ docs : List FetchedDoc,
      batchRun docs = (docs.length, numCommits docs.length)) ∧
    numCommits 450 = 1 ∧ numCommits 451 = 2 ∧
    (syncCollectionCore (mkSrc 450) [] none false true
        "2025-01-01T00:00:00Z").written = 450 ∧
    (syncCollectionCore (mkSrc 450) [] none false true
        "2025-01-01T00:00:00Z").commits = 1 ∧
    (syncCollectionCore (mkSrc 451) [] none false true
        "2025-01-01T00:00:00Z").written = 451 ∧
    (syncCollectionCore (mkSrc 451) [] none false true
        "2025-01-01T00:00:00Z").commits = 2 := by
  refine ⟨fun source target wm inc now =>
      ⟨core_written source target wm inc true now,
       core_commits source target wm inc true now⟩,
    batchRun_eq, by decide, by decide, ?_, ?_, ?_, ?_⟩
  · rw [core_written]
    decide
  · rw [core_commits]
    decide
  · rw [core_written]
    decide
  · rw [core_commits]
    decide

/-- C10: when the duplicate pre-check against the target fails, the
original document list is returned unfiltered, so the pass schedules and
writes every observed document (even those whose target copy has an equal
or newer timestamp) and counts no duplicate as skipped. -/
theorem c10_dup_check_failure_writes_all (source target : Db)
    (wm : Option Timestamp) (inc : Bool) (now : Timestamp) :
    coreToSync source target wm inc false now
      = coreFetched source wm inc now ∧
    (syncCollectionCore source target wm inc false now).written
      = (coreFetched source wm inc now).length ∧
    (syncCollectionCore source target wm inc false now).skipped = 0 ∧
    (syncCollectionCore source target wm inc false now).target
      = applyWrites target (coreFetched source wm inc now) := by
  refine ⟨rfl, ?_, ?_, ?_⟩
  · rw [core_written]
    rfl
  · rw [core_skipped]
    rfl
  · rw [core_target]
    rfl

/-- A document carrying neither updatedAt nor createdAt. -/
def noTsDoc : SourceDoc :=
  { id := "n1", data := { updatedAt := none, createdAt := none } }

/-- C6 counterexample: a pass over a single document with neither
timestamp, against an empty target and no stored watermark, writes the
document but persists the wall-clock fallback string as the new watermark.
The claim says the persisted watermark equals the maximum over only the
documents that carried a real timestamp, which here is the unchanged empty
watermark; instead the watermark advances to the substituted scan time. -/
theorem c6_counterexample_watermark_advances :
    noTsDoc.data.updatedAt = none ∧ noTsDoc.data.createdAt = none ∧
    (syncCollectionCore [noTsDoc] [] none false true
        "2025-06-01T00:00:00.000Z").written = 1 ∧
    (syncCollectionCore [noTsDoc] [] none false true
        "2025-06-01T00:00:00.000Z").watermark
      = some "2025-06-01T00:00:00.000Z" ∧
    (syncCollectionCore [noTsDoc] [] none false true
        "2025-06-01T00:00:00.000Z").watermark ≠ none := by
  refine ⟨rfl, rfl, by decide, by decide, by decide⟩

/-- C6 amended: a source document with neither updatedAt nor createdAt is
treated as always newer than the target (the duplicate check never skips
it, whatever the target holds) and is scheduled for writing; but after the
write the watermark does advance: `getIncrementalDocuments` substitutes
the scan-time wall clock for the missing timestamp, and the persisted
watermark is at least that substituted value. -/
theorem c6_amended_timestampless_written_watermark_advances
    (source target : Db) (wm : Option Timestamp) (inc : Bool)
    (now : Timestamp) (d : FetchedDoc)
    (hd : d ∈ coreFetched source wm inc now)
    (hu : d.data.updatedAt = none) (hc : d.data.createdAt = none) :
    dupSkip target d = false ∧
    d ∈ coreToSync source target wm inc true now ∧
    ∃ w, (syncCollectionCore source target wm inc true now).watermark
        = some w ∧ charListLt w.data now.data = false := by
  have heff : effTimestamp d.data = none := by
    simp [effTimestamp, hu, hc]
  have hskip : dupSkip target d = false := by
    unfold dupSkip
    rw [heff]
    rcases hval : dbGet target d.id with _ | ex
    · rfl
    · rcases hex : effTimestamp ex with _ | v <;> simp
  have hmem : d ∈ coreToSync source target wm inc true now := by
    simp [coreToSync, List.mem_filter, hd, hskip]
  have hupd : d.updatedAt = now := by
    obtain ⟨p, _, _, rfl⟩ := (mem_getIncrementalDocuments _ _ _ _).mp hd
    have : effTimestamp p.data = none := heff
    simp [enrich, this]
  refine ⟨hskip, hmem, ?_⟩
  have hne : coreToSync source target wm inc true now ≠ [] :=
    List.ne_nil_of_mem hmem
  rw [core_watermark, if_neg (by simp [List.isEmpty_iff, hne])]
  obtain ⟨w, hw⟩ := foldWatermark_some_of_ne_nil
    (coreToSync source target wm inc true now) (coreLastSync wm inc) hne
  refine ⟨w, hw, ?_⟩
  have := foldWatermark_le_of_mem _ _ d hmem w hw
  rwa [hupd] at this

theorem c6_amended_witness :
    dupSkip [⟨"n1", ⟨some "2030-01-01T00:00:00Z", none⟩⟩]
        (enrich "2025-06-01T00:00:00.000Z" noTsDoc) = false ∧
    ∃ w, (syncCollectionCore [noTsDoc]
        [⟨"n1", ⟨some "2030-01-01T00:00:00Z", none⟩⟩] none false true
        "2025-06-01T00:00:00.000Z").watermark = some w
      ∧ charListLt w.data "2025-06-01T00:00:00.000Z".data = false := by
  have h := c6_amended_timestampless_written_watermark_advances
    [noTsDoc] [⟨"n1", ⟨some "2030-01-01T00:00:00Z", none⟩⟩]
    none false "2025-06-01T00:00:00.000Z"
    (enrich "2025-06-01T00:00:00.000Z" noTsDoc)
    (by decide) (by decide) (by decide)
  exact ⟨h.1, h.2.2⟩

theorem dupSkip_congr (t : Db) (d1 d2 : FetchedDoc) (hid : d1.id = d2.id)
    (hdata : d1.data = d2.data) : dupSkip t d1 = dupSkip t d2 := by
  unfold dupSkip
  rw [hid, hdata]

theorem dupSkip_congr_target (t1 t2 : Db) (d : FetchedDoc)
    (h : dbGet t1 d.id = dbGet t2 d.id) : dupSkip t1 d = dupSkip t2 d := by
  unfold dupSkip
  rw [h]

theorem matchesFilter_some_iff (w : Timestamp) (p : SourceDoc) :
    matchesFilter (some w) p = true ↔
      ∃ u, p.data.updatedAt = some u ∧ tsLt w u = true := by
  unfold matchesFilter
  cases h : p.data.updatedAt <;> simp [h]

theorem enrich_updatedAt_of_stored (now : Timestamp) (p : SourceDoc)
    (u : Timestamp) (h : p.data.updatedAt = some u) :
    (enrich now p).updatedAt = u := by
  simp [enrich, effTimestamp, h]

theorem pass2_all_duplicates (source target : Db) (wm : Option Timestamp)
    (inc1 : Bool) (now1 now2 : Timestamp)
    (hn : (source.map SourceDoc.id).Nodup) (d2 : FetchedDoc)
    (hd2 : d2 ∈ getIncrementalDocuments source
        (syncCollectionCore source target wm inc1 true now1).watermark now2) :
    dupSkip (syncCollectionCore source target wm inc1 true now1).target d2
      = true := by
  obtain ⟨p, hp, hf2, rfl⟩ := (mem_getIncrementalDocuments _ _ _ _).mp hd2
  by_cases hTS : coreToSync source target wm inc1 true now1 = []
  · rw [core_watermark, if_pos (by simp [List.isEmpty_iff, hTS])] at hf2
    have htgt : (syncCollectionCore source target wm inc1 true now1).target
        = target := by
      rw [core_target, hTS]
      rfl
    rw [htgt]
    have hpf1 : matchesFilter (coreLastSync wm inc1) p = true := by
      cases inc1 with
      | true => simpa [coreLastSync] using hf2
      | false => simp [coreLastSync, matchesFilter]
    have hmemF : enrich now1 p ∈ coreFetched source wm inc1 now1 :=
      (mem_getIncrementalDocuments _ _ _ _).mpr ⟨p, hp, hpf1, rfl⟩
    have hdup1 : dupSkip target (enrich now1 p) = true := by
      by_contra hh
      rw [Bool.not_eq_true] at hh
      have : enrich now1 p ∈ coreToSync source target wm inc1 true now1 := by
        simp [coreToSync, List.mem_filter, hmemF, hh]
      rw [hTS] at this
      cases this
    calc dupSkip target (enrich now2 p)
        = dupSkip target (enrich now1 p) := dupSkip_congr _ _ _ rfl rfl
      _ = true := hdup1
  · rw [core_watermark, if_neg (by simp [List.isEmpty_iff, hTS])] at hf2
    obtain ⟨w, hw⟩ := foldWatermark_some_of_ne_nil _ (coreLastSync wm inc1) hTS
    rw [hw] at hf2
    obtain ⟨u, hu, hwu⟩ := (matchesFilter_some_iff _ _).mp hf2
    have hpf1 : matchesFilter (coreLastSync wm inc1) p = true := by
      cases inc1 with
      | false => simp [coreLastSync, matchesFilter]
      | true =>
        cases wm with
        | none => simp [coreLastSync, matchesFilter]
        | some w0 =>
          have hL : coreLastSync (some w0) true = some w0 := rfl
          rw [hL] at hw
          obtain ⟨w', hw', hnlt⟩ := foldWatermark_some_le
            (coreToSync source target (some w0) true true now1) w0
          rw [hw] at hw'
          have hww' : w' = w := by
            cases hw'
            rfl
          rw [hww'] at hnlt
          rw [hL]
          rw [matchesFilter_some_iff]
          refine ⟨u, hu, ?_⟩
          rcases charListLt_connex w.data w0.data hnlt with hlt | heqd
          · exact charListLt_trans w0.data w.data u.data hlt hwu
          · unfold tsLt
            rw [← heqd]
            exact hwu
    have hmemF : enrich now1 p ∈ coreFetched source wm inc1 now1 :=
      (mem_getIncrementalDocuments _ _ _ _).mpr ⟨p, hp, hpf1, rfl⟩
    have henr_u : (enrich now1 p).updatedAt = u :=
      enrich_updatedAt_of_stored now1 p u hu
    have hnotTS : enrich now1 p ∉ coreToSync source target wm inc1 true now1 := by
      intro hmem
      have hle := foldWatermark_le_of_mem _ _ (enrich now1 p) hmem w hw
      rw [henr_u] at hle
      rw [show charListLt w.data u.data = tsLt w u from rfl, hwu] at hle
      cases hle
    have hdup1 : dupSkip target (enrich now1 p) = true := by
      by_contra hh
      rw [Bool.not_eq_true] at hh
      exact hnotTS (by simp [coreToSync, List.mem_filter, hmemF, hh])
    have hnotid : p.id ∉ (coreToSync source target wm inc1 true now1).map
        FetchedDoc.id :=
      id_notMem_toSync_of_dup source target wm inc1 now1
        (enrich now1 p) hn hmemF hdup1
    have htget : dbGet (syncCollectionCore source target wm inc1 true now1).target
        p.id = dbGet target p.id := by
      rw [core_target]
      exact dbGet_applyWrites_notMem _ _ _ hnotid
    calc dupSkip (syncCollectionCore source target wm inc1 true now1).target
          (enrich now2 p)
        = dupSkip target (enrich now2 p) :=
          dupSkip_congr_target _ _ _ htget
      _ = dupSkip target (enrich now1 p) := dupSkip_congr _ _ _ rfl rfl
      _ = true := hdup1

/-- C2 amended: with no changes on the primary between the two calls (and
unique document ids), a second, incremental collection pass after any
first pass writes nothing and its duplicatesSkipped delta equals the
number of documents it observed; the incremental filter may however still
return previously-skipped duplicate documents, each of which is dropped
again by the duplicate check. -/
theorem c2_amended_second_pass_writes_nothing (source target : Db)
    (wm : Option Timestamp) (inc1 : Bool) (now1 now2 : Timestamp)
    (hn : (source.map SourceDoc.id).Nodup) :
    (syncCollectionCore source
        (syncCollectionCore source target wm inc1 true now1).target
        (syncCollectionCore source target wm inc1 true now1).watermark
        true true now2).written = 0 ∧
    (syncCollectionCore source
        (syncCollectionCore source target wm inc1 true now1).target
        (syncCollectionCore source target wm inc1 true now1).watermark
        true true now2).skipped
      = (syncCollectionCore source
          (syncCollectionCore source target wm inc1 true now1).target
          (syncCollectionCore source target wm inc1 true now1).watermark
          true true now2).fetched := by
  have hF2 : coreFetched source
      (syncCollectionCore source target wm inc1 true now1).watermark true now2
      = getIncrementalDocuments source
        (syncCollectionCore source target wm inc1 true now1).watermark now2 :=
    rfl
  have halldup : ∀ d ∈ coreFetched source
      (syncCollectionCore source target wm inc1 true now1).watermark true now2,
      dupSkip (syncCollectionCore source target wm inc1 true now1).target d
        = true := by
    intro d hd
    exact pass2_all_duplicates source target wm inc1 now1 now2 hn d
      (by rwa [hF2] at hd)
  constructor
  · rw [core_written]
    have : coreToSync source
        (syncCollectionCore source target wm inc1 true now1).target
        (syncCollectionCore source target wm inc1 true now1).watermark
        true true now2 = [] := by
      unfold coreToSync
      rw [if_pos rfl]
      exact List.filter_eq_nil_iff.mpr (fun d hd => by simp [halldup d hd])
    rw [this]
    rfl
  · rw [core_skipped, core_fetched, if_pos rfl]
    congr 1
    exact List.filter_eq_self.mpr (fun d hd => by simp [halldup d hd])

theorem c2_amended_second_pass_writes_nothing_witness :
    (syncCollectionCore
        [⟨"c", ⟨some "2024-12-01T00:00:00Z", none⟩⟩,
         ⟨"d", ⟨some "2024-01-01T00:00:00Z", none⟩⟩]
        (syncCollectionCore
          [⟨"c", ⟨some "2024-12-01T00:00:00Z", none⟩⟩,
           ⟨"d", ⟨some "2024-01-01T00:00:00Z", none⟩⟩]
          [⟨"c", ⟨some "2024-12-01T00:00:00Z", none⟩⟩]
          none false true "2025-01-01T00:00:00Z").target
        (syncCollectionCore
          [⟨"c", ⟨some "2024-12-01T00:00:00Z", none⟩⟩,
           ⟨"d", ⟨some "2024-01-01T00:00:00Z", none⟩⟩]
          [⟨"c", ⟨some "2024-12-01T00:00:00Z", none⟩⟩]
          none false true "2025-01-01T00:00:00Z").watermark
        true true "2025-01-02T00:00:00Z").written = 0 :=
  (c2_amended_second_pass_writes_nothing
    [⟨"c", ⟨some "2024-12-01T00:00:00Z", none⟩⟩,
     ⟨"d", ⟨some "2024-01-01T00:00:00Z", none⟩⟩]
    [⟨"c", ⟨some "2024-12-01T00:00:00Z", none⟩⟩]
    none false "2025-01-01T00:00:00Z" "2025-01-02T00:00:00Z"
    (by decide)).1

/-- C2 counterexample: two forward passes with no primary change in
between.  The primary holds documents c (updatedAt 2024-12) and d
(updatedAt 2024-01); the backup already holds c with the same timestamp.
The first pass skips c as a duplicate and writes only d, so the stored
watermark becomes 2024-01; the second, incremental pass therefore fetches
c again - its filter returns one document, not none as the claim states -
although it still writes nothing. -/
theorem c2_counterexample_second_filter_nonempty :
    (syncCollectionCore
        [⟨"c", ⟨some "2024-12-01T00:00:00Z", none⟩⟩,
         ⟨"d", ⟨some "2024-01-01T00:00:00Z", none⟩⟩]
        [⟨"c", ⟨some "2024-12-01T00:00:00Z", none⟩⟩]
        none false true "2025-01-01T00:00:00Z").written = 1 ∧
    (syncCollectionCore
        [⟨"c", ⟨some "2024-12-01T00:00:00Z", none⟩⟩,
         ⟨"d", ⟨some "2024-01-01T00:00:00Z", none⟩⟩]
        [⟨"c", ⟨some "2024-12-01T00:00:00Z", none⟩⟩]
        none false true "2025-01-01T00:00:00Z").watermark
      = some "2024-01-01T00:00:00Z" ∧
    getIncrementalDocuments
        [⟨"c", ⟨some "2024-12-01T00:00:00Z", none⟩⟩,
         ⟨"d", ⟨some "2024-01-01T00:00:00Z", none⟩⟩]
        (some "2024-01-01T00:00:00Z") "2025-01-02T00:00:00Z" ≠ [] ∧
    (getIncrementalDocuments
        [⟨"c", ⟨some "2024-12-01T00:00:00Z", none⟩⟩,
         ⟨"d", ⟨some "2024-01-01T00:00:00Z", none⟩⟩]
        (some "2024-01-01T00:00:00Z") "2025-01-02T00:00:00Z").length = 1 := by
  refine ⟨by decide, by decide, by decide, by decide⟩

/-- The auth sub-counters of `syncStats.authSync`. -/
structure AuthSyncStats where
  totalUsers : Nat
  syncedUsers : Nat
  errors : Nat
  customClaims : Nat
deriving DecidableEq, Repr

/-- The run status values the engine assigns to `syncStats.status`. -/
inductive RunStatus
  | idle
  | syncing
  | completed
  | paused
  | error
  | recovering
deriving DecidableEq, Repr

/-- `this.syncStats` of `EnhancedSyncService`.  Wall-clock members are
`Option Timestamp` set from the run `now` parameter.  Note that the
per-collection watermarks (`this.syncMetadata`) are NOT part of this
record, exactly as in the source, where `saveStats` serializes
`this.syncStats` only. -/
structure SyncStats where
  totalSynced : Nat
  lastSync : Option Timestamp
  errors : Nat
  status : RunStatus
  lastFullSync : Option Timestamp
  incrementalSyncs : Nat
  duplicatesSkipped : Nat
  authSync : AuthSyncStats
deriving DecidableEq, Repr

def defaultAuthStats : AuthSyncStats :=
  { totalUsers := 0, syncedUsers := 0, errors := 0, customClaims := 0 }

/-- The zero-initialised stats of the `EnhancedSyncService` constructor. -/
def defaultSyncStats : SyncStats :=
  { totalSynced := 0, lastSync := none, errors := 0, status := .idle,
    lastFullSync := none, incrementalSyncs := 0, duplicatesSkipped := 0,
    authSync := defaultAuthStats }

/-- One collection as the engine sees it: the main-side documents, the
backup-side documents, and the two `syncMetadata` watermarks
(`name` and `name_recovery` keys in the source). -/
structure CollEntry where
  name : String
  primary : Db
  backup : Db
  wmForward : Option Timestamp
  wmRecover : Option Timestamp
deriving DecidableEq, Repr

/-- `syncCollectionToBackup(collectionName, incrementalOnly)`: the forward
direction of the shared collection-sync algorithm, reading main and
merge-writing backup, keyed on the forward watermark. -/
def syncCollectionToBackup (c : CollEntry) (incrementalOnly : Bool)
    (now : Timestamp) : CollEntry × CollSyncResult :=
  let r := syncCollectionCore c.primary c.backup c.wmForward
    incrementalOnly true now
  ({ c with backup := r.target, wmForward := r.watermark }, r)

/-- `syncCollectionToMain(collectionName, incrementalOnly)`: the recovery
direction, reading backup and merge-writing main, keyed on the
`collectionName_recovery` watermark. -/
def syncCollectionToMain (c : CollEntry) (now : Timestamp) :
    CollEntry × CollSyncResult :=
  let r := syncCollectionCore c.backup c.primary c.wmRecover true true now
  ({ c with primary := r.target, wmRecover := r.watermark }, r)

/-- The whole engine state: the busy flag, the cumulative counters, the
collection entries, and the content of `logs/sync-stats.json` (`none`
when the file does not exist). -/
structure EngineState where
  isSyncing : Bool
  syncStats : SyncStats
  colls : List CollEntry
  statsFile : Option SyncStats
deriving DecidableEq, Repr

/-- The four health booleans of `checkDatabaseHealth`. -/
structure HealthSnapshot where
  mainDb : Bool
  backupDb : Bool
  mainAuth : Bool
  backupAuth : Bool
deriving DecidableEq, Repr

/-- Outcome marker of a run-start attempt: `busy` models the early
`return` of the `isSyncing` guard, `ran` everything else. -/
inductive RunResult
  | busy
  | ran
deriving DecidableEq, Repr

/-- The `EnhancedSyncService` constructor with `loadStats`: counters come
from the stats file when it exists and from the zero defaults otherwise;
`syncMetadata` (the watermarks) always starts empty because the file never
holds watermarks. -/
def initEngine (dbs : List (String × Db × Db)) (file : Option SyncStats) :
    EngineState :=
  { isSyncing := false,
    syncStats := match file with | some saved => saved | none => defaultSyncStats,
    colls := dbs.map (fun e =>
      { name := e.1, primary := e.2.1, backup := e.2.2,
        wmForward := none, wmRecover := none }),
    statsFile := file }

/-- `performFirestoreSync` of `EnhancedSyncService`: sync every collection
forward (incremental unless this is the first full sync), add the written
count to `totalSynced`, bump `incrementalSyncs`, stamp `lastFullSync` on
a first sync, and `saveStats`.  Collection discovery is modelled
separately (`discoverCollections`); here the engine iterates its
collection entries. -/
def performFirestoreSync (s : EngineState) (now : Timestamp) :
    EngineState × Nat :=
  let isFirstSync := s.syncStats.lastFullSync.isNone
  let step := s.colls.foldl
    (fun (acc : List CollEntry × Nat × Nat) c =>
      let cr := syncCollectionToBackup c (!isFirstSync) now
      (acc.1 ++ [cr.1], acc.2.1 + cr.2.written, acc.2.2 + cr.2.skipped))
    ([], 0, 0)
  let stats1 := { s.syncStats with
    totalSynced := s.syncStats.totalSynced + step.2.1,
    duplicatesSkipped := s.syncStats.duplicatesSkipped + step.2.2,
    incrementalSyncs := s.syncStats.incrementalSyncs + 1,
    lastFullSync := if isFirstSync then some now
      else s.syncStats.lastFullSync }
  ({ s with colls := step.1, syncStats := stats1, statsFile := some stats1 },
   step.2.1)

/-- `performFullSync` of `EnhancedSyncService`: busy guard, health gate
(`paused` when main DB or main auth is offline, `error` when backup DB or
backup auth is offline - both early returns skip `saveStats`), then the
document phase and the auth phase, a final `saveStats`, and the `finally`
that clears `isSyncing`.  The auth replication outcome is opaque at this
level and passed in as `authResult` (its success path stores the returned
auth stats). -/
def performFullSync (h : HealthSnapshot) (authResult : AuthSyncStats)
    (now : Timestamp) (s : EngineState) : RunResult × EngineState :=
  if s.isSyncing then (.busy, s)
  else
    let stats0 := { s.syncStats with status := .syncing, lastSync := some now }
    if !(h.mainDb && h.mainAuth) then
      (.ran, { s with
                isSyncing := false,
                syncStats := { stats0 with status := .paused } })
    else if !(h.backupDb && h.backupAuth) then
      (.ran, { s with
                isSyncing := false,
                syncStats := { stats0 with
                                status := .error,
                                errors := stats0.errors + 1 } })
    else
      let mid := performFirestoreSync
        { s with syncStats := stats0, isSyncing := true } now
      let stats2 := { mid.1.syncStats with
                        authSync := authResult,
                        status := .completed,
                        lastSync := some now }
      (.ran, { mid.1 with
                isSyncing := false,
                syncStats := stats2,
                statsFile := some stats2 })

/-- `performRecovery` of `EnhancedSyncService`: busy guard, main-side
health gate (early return without saving), then recovery of every
collection into main, counter update and `saveStats`. -/
def performRecovery (h : HealthSnapshot) (now : Timestamp) (s : EngineState) :
    RunResult × EngineState :=
  if s.isSyncing then (.busy, s)
  else
    let stats0 := { s.syncStats with status := .recovering }
    if !(h.mainDb && h.mainAuth) then
      (.ran, { s with isSyncing := false, syncStats := stats0 })
    else
      let step := s.colls.foldl
        (fun (acc : List CollEntry × Nat × Nat) c =>
          let cr := syncCollectionToMain c now
          (acc.1 ++ [cr.1], acc.2.1 + cr.2.written, acc.2.2 + cr.2.skipped))
        ([], 0, 0)
      let stats1 := { stats0 with
        totalSynced := stats0.totalSynced + step.2.1,
        duplicatesSkipped := stats0.duplicatesSkipped + step.2.2,
        status := .completed }
      (.ran, { s with
                isSyncing := false,
                colls := step.1,
                syncStats := stats1,
                statsFile := some stats1 })

/-- A small concrete engine: one collection with one syncable document on
main and an empty backup. -/
def exEngine : EngineState :=
  { isSyncing := false,
    syncStats := defaultSyncStats,
    colls := [{ name := "appointments",
                primary := [⟨"a1", ⟨some "2024-01-01T00:00:01Z", none⟩⟩],
                backup := [], wmForward := none, wmRecover := none }],
    statsFile := none }

/-- C3 counterexample: with primary DB online, standby DB online, primary
auth offline and standby auth online, a forward run does NOT replicate the
document collections: the gate `!mainDb || !mainAuth` pauses the whole run
before the document phase, leaving the collections untouched and
totalSynced at zero, although a fully healthy run over the same state
would have replicated one document. -/
theorem c3_counterexample_auth_offline_pauses_everything :
    (performFullSync ⟨true, true, false, true⟩ defaultAuthStats
        "2025-01-01T00:00:00Z" exEngine).2.syncStats.status
      = RunStatus.paused ∧
    (performFullSync ⟨true, true, false, true⟩ defaultAuthStats
        "2025-01-01T00:00:00Z" exEngine).2.colls = exEngine.colls ∧
    (performFullSync ⟨true, true, false, true⟩ defaultAuthStats
        "2025-01-01T00:00:00Z" exEngine).2.syncStats.totalSynced = 0 ∧
    (performFullSync ⟨true, true, true, true⟩ defaultAuthStats
        "2025-01-01T00:00:00Z" exEngine).2.syncStats.totalSynced = 1 := by
  refine ⟨by decide, by decide, by decide, by decide⟩

/-- C3 amended: whenever primary auth is reported offline (whatever the
other three probes say), a forward run returns immediately after the
health gate with overall status paused, and no document replication
happens: the collection entries (backup contents and watermarks), the
totalSynced counter and the stats file are all unchanged. -/
theorem c3_amended_auth_offline_pauses (h : HealthSnapshot)
    (auth : AuthSyncStats) (now : Timestamp) (s : EngineState)
    (hs : s.isSyncing = false) (hauth : h.mainAuth = false) :
    (performFullSync h auth now s).1 = RunResult.ran ∧
    (performFullSync h auth now s).2.syncStats.status = RunStatus.paused ∧
    (performFullSync h auth now s).2.colls = s.colls ∧
    (performFullSync h auth now s).2.syncStats.totalSynced
      = s.syncStats.totalSynced ∧
    (performFullSync h auth now s).2.statsFile = s.statsFile := by
  unfold performFullSync
  rw [hs]
  simp [hauth]

theorem c3_amended_auth_offline_pauses_witness :
    (performFullSync ⟨true, true, false, true⟩ defaultAuthStats
        "2025-01-01T00:00:00Z" exEngine).2.syncStats.status
      = RunStatus.paused ∧
    (performFullSync ⟨true, true, false, true⟩ defaultAuthStats
        "2025-01-01T00:00:00Z" exEngine).2.colls = exEngine.colls := by
  have h := c3_amended_auth_offline_pauses ⟨true, true, false, true⟩
    defaultAuthStats "2025-01-01T00:00:00Z" exEngine rfl rfl
  exact ⟨h.2.1, h.2.2.1⟩

/-- C4 counterexample: a run that ends paused at the health gate (primary
DB offline) does not serialize anything: the stats file stays absent,
contradicting the claim that after every run, including paused ones, the
counters and watermarks are persisted.  (The serialized record also never
contains watermarks: `saveStats` writes `this.syncStats` only, which the
`SyncStats` model mirrors by having no watermark field.) -/
theorem c4_counterexample_paused_run_saves_nothing :
    (performFullSync ⟨false, true, true, true⟩ defaultAuthStats
        "2025-01-01T00:00:00Z" exEngine).2.syncStats.status
      = RunStatus.paused ∧
    (performFullSync ⟨false, true, true, true⟩ defaultAuthStats
        "2025-01-01T00:00:00Z" exEngine).2.statsFile = none := by
  refine ⟨by decide, by decide⟩

/-- C4 amended: only runs that pass both health gates write the stats
file, and they serialize exactly the final counters record (which
contains no watermarks); gated paused or error runs leave the file as it
was.  On startup the counters are restored from the file when it exists
and are zero otherwise, while the watermarks always start empty. -/
theorem c4_amended_stats_persistence (h : HealthSnapshot)
    (auth : AuthSyncStats) (now : Timestamp) (s : EngineState)
    (hs : s.isSyncing = false) :
    (performFullSync h auth now s).2.statsFile
      = (if h.mainDb && h.mainAuth then
          (if h.backupDb && h.backupAuth then
            some (performFullSync h auth now s).2.syncStats
          else s.statsFile)
        else s.statsFile) ∧
    (∀ (dbs : List (String × Db × Db)) (file : Option SyncStats),
      (initEngine dbs file).syncStats
        = (match file with | some saved => saved | none => defaultSyncStats) ∧
      ∀ c ∈ (initEngine dbs file).colls,
        c.wmForward = none ∧ c.wmRecover = none) := by
  constructor
  · unfold performFullSync
    rw [hs]
    by_cases h1 : (h.mainDb && h.mainAuth) = true
    · by_cases h2 : (h.backupDb && h.backupAuth) = true
      · simp [h1, h2]
      · simp [h1, h2]
    · simp [h1]
  · intro dbs file
    refine ⟨rfl, ?_⟩
    intro c hc
    simp only [initEngine, List.mem_map] at hc
    obtain ⟨e, _, rfl⟩ := hc
    exact ⟨rfl, rfl⟩

theorem c4_amended_stats_persistence_witness :
    (performFullSync ⟨true, true, true, true⟩ defaultAuthStats
        "2025-01-01T00:00:00Z" exEngine).2.statsFile
      = some (performFullSync ⟨true, true, true, true⟩ defaultAuthStats
          "2025-01-01T00:00:00Z" exEngine).2.syncStats := by
  have h := (c4_amended_stats_persistence ⟨true, true, true, true⟩
    defaultAuthStats "2025-01-01T00:00:00Z" exEngine rfl).1
  simpa using h

/-- C7: any attempt to start a forward run or a recovery while a run is
already in progress returns immediately with the busy indication and
leaves the entire engine state - counters, watermarks, both database
sides and the stats file - untouched. -/
theorem c7_busy_guard (h : HealthSnapshot) (auth : AuthSyncStats)
    (now : Timestamp) (s : EngineState) (hs : s.isSyncing = true) :
    performFullSync h auth now s = (RunResult.busy, s) ∧
    performRecovery h now s = (RunResult.busy, s) := by
  unfold performFullSync performRecovery
  rw [hs]
  simp

def busyEngine : EngineState := { exEngine with isSyncing := true }

theorem c7_busy_guard_witness :
    performFullSync ⟨true, true, true, true⟩ defaultAuthStats
        "2025-01-01T00:00:00Z" busyEngine = (RunResult.busy, busyEngine) ∧
    performRecovery ⟨true, true, true, true⟩ "2025-01-01T00:00:00Z"
        busyEngine = (RunResult.busy, busyEngine) :=
  c7_busy_guard ⟨true, true, true, true⟩ defaultAuthStats
    "2025-01-01T00:00:00Z" busyEngine rfl

/-- The hard-coded known collection names that `discoverCollections`
always adds to the listing. -/
def knownCollections : List String :=
  ["appointments", "availability", "chats", "notifications",
   "specialities", "users"]

/-- `discoverCollections`: recomputes `this.collections` from the primary
listing plus the known names.  The previous in-memory set (`current`) is
consulted only to compute the added-collections log entry (second
component); the stored set is replaced by the first component. -/
def discoverCollections (listed current : List String) :
    List String × List String :=
  let newCollections :=
    listed ++ knownCollections.filter (fun c => !listed.contains c)
  (newCollections, newCollections.filter (fun c => !current.contains c))

/-- A JSON-ish Firestore value: `prim` covers every non-object non-array
value (string, number, boolean, null, timestamp); JS `typeof` guards in
the source treat exactly plain objects as recursable. -/
inductive JsVal where
  | prim : JsVal
  | arr : List JsVal → JsVal
  | obj : List (String × JsVal) → JsVal

/-- One sampled document payload: its top-level field list. -/
abbrev JsFields := List (String × JsVal)

mutual
/-- The per-value recursion of `extractKeysFromObject`: descends into
nested plain objects, not into arrays or primitives. -/
def extractKeysFromValue (pre : String) : JsVal → List String
  | .obj fields => extractKeysFromObject pre fields
  | _ => []

/-- `extractKeysFromObject(obj, keySet, prefix)`: for every entry record
the dotted full key, then recurse into plain-object values. -/
def extractKeysFromObject (pre : String) : JsFields → List String
  | [] => []
  | (k, v) :: rest =>
    let fullKey := if pre = "" then k else pre ++ "." ++ k
    (fullKey :: extractKeysFromValue fullKey v)
      ++ extractKeysFromObject pre rest
end

/-- `analyzeCollectionSchema`: computes the key set over the sampled
documents (a JS `Set`, modelled by `dedup`; only membership matters),
derives the `schemaChange` payload `newKeys` as the sampled keys absent
from the previous schema, and stores the new array in place of the
previous schema.  Returns (stored schema, newKeys). -/
def analyzeCollectionSchema (samples : List JsFields)
    (previous : Option (List String)) : List String × List String :=
  let schemaArray :=
    (samples.foldl (fun acc doc => acc ++ extractKeysFromObject "" doc)
      []).dedup
  let newKeys := match previous with
    | some prev => schemaArray.filter (fun k => !prev.contains k)
    | none => []
  (schemaArray, newKeys)

theorem list_contains_iff (l : List String) (c : String) :
    l.contains c = true ↔ c ∈ l := List.elem_iff

/-- C9 counterexample: a collection name outside the six known defaults
("custom1"), present in the in-memory set from an earlier pass, is removed
by a later discovery pass in which the primary listing no longer contains
it: `discoverCollections` replaces `this.collections` with listing plus
known names instead of retaining old members. -/
theorem c9_counterexample_collection_dropped :
    "custom1" ∈ (knownCollections ++ ["custom1"]) ∧
    "custom1" ∉ (discoverCollections [] (knownCollections ++ ["custom1"])).1 := by
  refine ⟨by decide, by decide⟩

/-- C9 amended: each discovery pass recomputes the in-memory collection
set as the primary listing plus the six built-in known names,
independently of the previous set: membership after a pass holds exactly
for listed-or-known names, so a previously present name outside the known
list disappears once it is no longer listed.  The added-collections log
contains exactly the recomputed names that were not previously present. -/
theorem c9_amended_discovery_replaces_set (listed current : List String)
    (c : String) :
    (c ∈ (discoverCollections listed current).1 ↔
      (c ∈ listed ∨ c ∈ knownCollections)) ∧
    (c ∈ (discoverCollections listed current).2 ↔
      ((c ∈ listed ∨ c ∈ knownCollections) ∧ c ∉ current)) := by
  simp only [discoverCollections, List.mem_append, List.mem_filter,
    Bool.not_eq_true', list_contains_iff, Bool.not_eq_true]
  constructor
  · constructor
    · rintro (h | ⟨h, _⟩)
      · exact Or.inl h
      · exact Or.inr h
    · rintro (h | h)
      · exact Or.inl h
      · by_cases hl : c ∈ listed
        · exact Or.inl hl
        · exact Or.inr ⟨h, by simpa [list_contains_iff] using hl⟩
  · constructor
    · rintro ⟨h | ⟨h, _⟩, hc⟩
      · exact ⟨Or.inl h, by simpa [list_contains_iff] using hc⟩
      · exact ⟨Or.inr h, by simpa [list_contains_iff] using hc⟩
    · rintro ⟨h | h, hc⟩
      · exact ⟨Or.inl h, by simpa [list_contains_iff] using hc⟩
      · by_cases hl : c ∈ listed
        · exact ⟨Or.inl hl, by simpa [list_contains_iff] using hc⟩
        · exact ⟨Or.inr ⟨h, by simpa [list_contains_iff] using hl⟩,
            by simpa [list_contains_iff] using hc⟩

theorem c9_amended_discovery_replaces_set_witness :
    "custom1" ∈ (discoverCollections ["custom1"] []).1 ↔
      ("custom1" ∈ ["custom1"] ∨ "custom1" ∈ knownCollections) :=
  (c9_amended_discovery_replaces_set ["custom1"] [] "custom1").1

/-- C8 counterexample: the key "a" was recorded in the stored schema of a
collection; a later analysis pass samples a document carrying only "b",
and the stored schema after that pass is exactly ["b"]: the previously
recorded key "a" is absent, so the tracked schema set did not grow
monotonically even though no reset occurred. -/
theorem c8_counterexample_recorded_key_dropped :
    "a" ∈ ["a"] ∧
    (analyzeCollectionSchema [[("b", JsVal.prim)]] (some ["a"])).1 = ["b"] ∧
    "a" ∉ (analyzeCollectionSchema [[("b", JsVal.prim)]] (some ["a"])).1 := by
  refine ⟨by decide, ?_, ?_⟩
  · simp [analyzeCollectionSchema, extractKeysFromObject, extractKeysFromValue]
  · simp [analyzeCollectionSchema, extractKeysFromObject, extractKeysFromValue]

/-- C8 amended: each analysis pass replaces the stored schema with the key
set of the newly sampled documents, independently of the previous schema,
so keys absent from the new sample are dropped; only the schemaChange
event diff ignores removals: `newKeys` contains exactly sampled keys that
are not in the previous schema. -/
theorem c8_amended_schema_replaced (samples : List JsFields)
    (prev1 prev2 : Option (List String)) (prev : List String) :
    (analyzeCollectionSchema samples prev1).1
      = (analyzeCollectionSchema samples prev2).1 ∧
    (∀ k ∈ (analyzeCollectionSchema samples (some prev)).2,
      k ∉ prev ∧ k ∈ (analyzeCollectionSchema samples (some prev)).1) := by
  constructor
  · rfl
  · intro k hk
    simp only [analyzeCollectionSchema, List.mem_filter, Bool.not_eq_true',
      list_contains_iff, Bool.not_eq_true] at hk
    refine ⟨by simpa [list_contains_iff] using hk.2, ?_⟩
    simpa [analyzeCollectionSchema] using hk.1

theorem c8_amended_schema_replaced_witness :
    (analyzeCollectionSchema [[("b", JsVal.prim)]] (some ["a"])).1
      = (analyzeCollectionSchema [[("b", JsVal.prim)]] none).1 :=
  (c8_amended_schema_replaced [[("b", JsVal.prim)]] (some ["a"]) none ["a"]).1
